import Mathlib

/-!
Verification of the flashcard spaced-repetition scheduler.

This file gives a shallow embedding of the scheduling core of the
flashcard repository and proves properties of it:

* `calculateSM2` (from `src/flashcard-app/src/lib/sm2.ts`): the SM-2
  review calculator.  JavaScript numbers are modelled as rationals
  (the exact field values differ from IEEE doubles by rounding noise,
  but every branch condition and every rounded integer result proved
  here is insensitive to that noise at the inputs considered).
  `Math.round` is `jsRound` below (round half towards positive
  infinity).  The clock-dependent `nextReviewDate` field is omitted:
  it is `now + interval` days and carries no additional logic.
* `fetchDueCards` / `IsDueResult` (from the implementation guide,
  `src/unnamed/part_000`): the due selector.  The TypeScript builds a
  PostgREST query `.lte('next_review_date', now)` and
  `.order('next_review_date', ascending)`; the database guarantees
  exactly that the returned rows are the due rows in some order that
  is non-decreasing in `next_review_date`.  `IsDueResult` captures
  that guarantee; `fetchDueCards` is one deterministic refinement of
  it (an insertion sort on the filtered rows).
* `updateUserStreak` (from `src/unnamed/part_000`): the streak
  tracker.  Calendar dates are modelled as integers (day numbers);
  one day later is `+ 1`.  The profile row holds exactly the columns
  the code reads and writes: `last_study_date`, `streak_count`,
  `total_cards_studied`.
-/

namespace Flashcard

/-- JavaScript `Math.round`: round half towards positive infinity. -/
def jsRound (q : ℚ) : ℤ := ⌊q + 1 / 2⌋

/-- Round half away from zero, the rounding named by the spec. -/
def roundHalfAwayFromZero (q : ℚ) : ℤ :=
  if 0 ≤ q then ⌊q + 1 / 2⌋ else -⌊-q + 1 / 2⌋

/-- Input of `calculateSM2` (interface `SM2Input` in `sm2.ts`). -/
structure SM2Input where
  quality : ℚ
  repetitions : ℤ
  easeFactor : ℚ
  interval : ℚ
  deriving Repr, DecidableEq

/-- Output of `calculateSM2` (interface `SM2Result` in `sm2.ts`,
without the clock-dependent `nextReviewDate`). -/
structure SM2Result where
  interval : ℚ
  repetitions : ℤ
  easeFactor : ℚ
  deriving Repr, DecidableEq

/-- The SM-2 calculator, `calculateSM2` from
`src/flashcard-app/src/lib/sm2.ts`, line for line: validate quality,
update the ease factor and clamp it at 1.3, then branch on failure
(`quality < 3`) and on the new repetition count. -/
def calculateSM2 (input : SM2Input) : Except String SM2Result :=
  if input.quality < 0 ∨ input.quality > 5 then
    Except.error "Quality must be between 0 and 5"
  else
    let rawEase : ℚ :=
      input.easeFactor +
        (0.1 - (5 - input.quality) * (0.08 + (5 - input.quality) * 0.02))
    let newEaseFactor : ℚ := max 1.3 rawEase
    if input.quality < 3 then
      Except.ok { interval := 1, repetitions := 0, easeFactor := newEaseFactor }
    else
      let newRepetitions : ℤ := input.repetitions + 1
      let newInterval : ℚ :=
        if newRepetitions = 1 then 1
        else if newRepetitions = 2 then 6
        else (jsRound (input.interval * newEaseFactor) : ℚ)
      Except.ok
        { interval := newInterval, repetitions := newRepetitions,
          easeFactor := newEaseFactor }

/-- The updated ease factor, abbreviating the expression computed by
`calculateSM2` (used to state the branch lemma below). -/
def sm2Ease (input : SM2Input) : ℚ :=
  max 1.3
    (input.easeFactor +
      (0.1 - (5 - input.quality) * (0.08 + (5 - input.quality) * 0.02)))

/-! ### Due selector (`fetchDueCards`, implementation guide) -/

/-- A row of the `card_reviews` relation as read by `fetchDueCards`:
the card identifier and its `next_review_date` (a timestamp, modelled
as an integer). -/
structure ReviewRow where
  cardId : ℕ
  nextReviewAt : ℤ
  deriving Repr, DecidableEq

/-- The ordering used by the query's order clause:
`.order('next_review_date', ascending: true)`. -/
def byNextReview (a b : ReviewRow) : Prop :=
  a.nextReviewAt ≤ b.nextReviewAt

instance : DecidableRel byNextReview := fun a b =>
  Int.decLe a.nextReviewAt b.nextReviewAt

instance : IsTotal ReviewRow byNextReview :=
  ⟨fun a b => le_total a.nextReviewAt b.nextReviewAt⟩

instance : IsTrans ReviewRow byNextReview :=
  ⟨fun _ _ _ hab hbc => le_trans hab hbc⟩

/-- What the database guarantees for the query built by
`fetchDueCards`: `.lte('next_review_date', asOf)` with
`.order('next_review_date', ascending)` returns exactly the rows that
are due, in some order that is non-decreasing in `next_review_date`.
Nothing constrains the relative order of rows with equal
`next_review_date`: the code supplies no secondary order key. -/
def IsDueResult (rows : List ReviewRow) (asOf : ℤ) (out : List ReviewRow) : Prop :=
  out.Perm (rows.filter fun r => decide (r.nextReviewAt ≤ asOf)) ∧
  out.Pairwise byNextReview

/-- Executable model of `fetchDueCards` (implementation guide,
`src/unnamed/part_000`): filter to the due rows and sort them by
`next_review_date` ascending (one refinement of the database's order
guarantee; the deck scope and the projection to card fields carry no
scheduling logic and are omitted). -/
def fetchDueCards (rows : List ReviewRow) (asOf : ℤ) : List ReviewRow :=
  List.insertionSort byNextReview
    (rows.filter fun r => decide (r.nextReviewAt ≤ asOf))

/-! ### Streak tracker (`updateUserStreak`, implementation guide) -/

/-- The fields of the `profiles` row that `updateUserStreak` reads and
writes (`last_study_date`, `streak_count`, `total_cards_studied`).
Calendar dates are day numbers (an integer); `none` is a profile that
has never studied (`last_study_date` NULL). -/
structure StreakProfile where
  lastStudyDate : Option ℤ
  streakCount : ℤ
  totalCardsStudied : ℤ
  deriving Repr, DecidableEq

/-- The streak update of `updateUserStreak`
(`src/unnamed/part_000`): if the last study date is today, nothing is
written; otherwise the streak is incremented when the last study date
is yesterday and reset to 1 in every other case (the source's inner
`else if (lastStudy !== today)` is always true at that point), and
`last_study_date` and `total_cards_studied` are updated. -/
def updateUserStreak (p : StreakProfile) (today : ℤ) : StreakProfile :=
  if p.lastStudyDate = some today then p
  else
    { lastStudyDate := some today,
      streakCount :=
        if p.lastStudyDate = some (today - 1) then p.streakCount + 1 else 1,
      totalCardsStudied := p.totalCardsStudied + 1 }

/-! ### Theorems -/

/-- Branch lemma: on a valid quality, `calculateSM2` succeeds and its
result is given by the failure/repetition case split of the source. -/
lemma calculateSM2_eq_ok (input : SM2Input)
    (h0 : 0 ≤ input.quality) (h5 : input.quality ≤ 5) :
    calculateSM2 input =
      if input.quality < 3 then
        Except.ok
          { interval := 1, repetitions := 0, easeFactor := sm2Ease input }
      else if input.repetitions + 1 = 1 then
        Except.ok
          { interval := 1, repetitions := input.repetitions + 1,
            easeFactor := sm2Ease input }
      else if input.repetitions + 1 = 2 then
        Except.ok
          { interval := 6, repetitions := input.repetitions + 1,
            easeFactor := sm2Ease input }
      else
        Except.ok
          { interval := (jsRound (input.interval * sm2Ease input) : ℚ),
            repetitions := input.repetitions + 1,
            easeFactor := sm2Ease input } := by
  have hv : ¬(input.quality < 0 ∨ input.quality > 5) := by
    push_neg
    exact ⟨h0, h5⟩
  simp only [calculateSM2, sm2Ease, if_neg hv]
  split_ifs <;> rfl

lemma le_sm2Ease (input : SM2Input) : (1.3 : ℚ) ≤ sm2Ease input :=
  le_max_left _ _

/-- On a nonnegative argument, rounding half away from zero agrees with
JavaScript rounding (half towards positive infinity). -/
lemma roundHalfAwayFromZero_eq_jsRound {q : ℚ} (h : 0 ≤ q) :
    roundHalfAwayFromZero q = jsRound q := by
  simp only [roundHalfAwayFromZero, jsRound, if_pos h]

/-- C1: for every quality in [0,5] and every input state,
`calculateSM2` returns repetitions and interval equal to the reference
definition: on `quality < 3` repetitions resets to 0 and interval to 1;
on `quality ≥ 3` repetitions is incremented and the interval is 1 on
the first success, 6 on the second, and otherwise the previous
interval times the updated ease factor, rounded half away from zero. -/
theorem sm2_repetitions_interval_spec (input : SM2Input)
    (h0 : 0 ≤ input.quality) (h5 : input.quality ≤ 5)
    (_hrep : 0 ≤ input.repetitions) (hint : 0 ≤ input.interval) :
    ∃ r : SM2Result, calculateSM2 input = Except.ok r ∧
      (input.quality < 3 → r.repetitions = 0 ∧ r.interval = 1) ∧
      (3 ≤ input.quality →
        r.repetitions = input.repetitions + 1 ∧
        (r.repetitions = 1 → r.interval = 1) ∧
        (r.repetitions = 2 → r.interval = 6) ∧
        (3 ≤ r.repetitions →
          r.interval =
            (roundHalfAwayFromZero (input.interval * r.easeFactor) : ℚ))) := by
  rw [calculateSM2_eq_ok input h0 h5]
  by_cases h3 : input.quality < 3
  · rw [if_pos h3]
    refine ⟨_, rfl, fun _ => ⟨rfl, rfl⟩, fun hq3 => absurd h3 (not_lt.mpr hq3)⟩
  · rw [if_neg h3]
    have hmul : 0 ≤ input.interval * sm2Ease input :=
      mul_nonneg hint (le_trans (by norm_num) (le_sm2Ease input))
    by_cases h1 : input.repetitions + 1 = 1
    · rw [if_pos h1]
      refine ⟨_, rfl, fun hq => absurd hq h3,
        fun _ => ⟨rfl, fun _ => rfl, ?_, ?_⟩⟩
      · intro hr
        have hr' : input.repetitions + 1 = 2 := hr
        exact absurd hr' (by omega)
      · intro hr
        have hr' : (3 : ℤ) ≤ input.repetitions + 1 := hr
        exact absurd hr' (by omega)
    · rw [if_neg h1]
      by_cases h2 : input.repetitions + 1 = 2
      · rw [if_pos h2]
        refine ⟨_, rfl, fun hq => absurd hq h3,
          fun _ => ⟨rfl, ?_, fun _ => rfl, ?_⟩⟩
        · intro hr
          have hr' : input.repetitions + 1 = 1 := hr
          exact absurd hr' h1
        · intro hr
          have hr' : (3 : ℤ) ≤ input.repetitions + 1 := hr
          exact absurd hr' (by omega)
      · rw [if_neg h2]
        refine ⟨_, rfl, fun hq => absurd hq h3,
          fun _ => ⟨rfl, ?_, ?_, fun _ => ?_⟩⟩
        · intro hr
          have hr' : input.repetitions + 1 = 1 := hr
          exact absurd hr' h1
        · intro hr
          have hr' : input.repetitions + 1 = 2 := hr
          exact absurd hr' h2
        · show (jsRound (input.interval * sm2Ease input) : ℚ) =
            (roundHalfAwayFromZero (input.interval * sm2Ease input) : ℚ)
          rw [roundHalfAwayFromZero_eq_jsRound hmul]

/-- Witness for C1 at quality 4, state (ease 2.5, interval 6,
repetitions 2): the third success multiplies the previous interval by
the updated ease factor 2.5 and rounds, giving 15. -/
theorem sm2_repetitions_interval_spec_witness :
    ∃ r : SM2Result,
      calculateSM2 { quality := 4, repetitions := 2, easeFactor := 2.5, interval := 6 } =
        Except.ok r ∧
      ((4 : ℚ) < 3 → r.repetitions = 0 ∧ r.interval = 1) ∧
      ((3 : ℚ) ≤ 4 →
        r.repetitions = 2 + 1 ∧
        (r.repetitions = 1 → r.interval = 1) ∧
        (r.repetitions = 2 → r.interval = 6) ∧
        (3 ≤ r.repetitions →
          r.interval = (roundHalfAwayFromZero (6 * r.easeFactor) : ℚ))) :=
  sm2_repetitions_interval_spec
    { quality := 4, repetitions := 2, easeFactor := 2.5, interval := 6 }
    (by norm_num) (by norm_num) (by norm_num) (by norm_num)

/-- C2: for every quality in [0,5] and every input ease factor,
`calculateSM2` returns the ease factor
max(1.3, ease + (0.1 - (5 - quality) * (0.08 + (5 - quality) * 0.02))),
which in particular is never below 1.3. -/
theorem sm2_easeFactor_spec (input : SM2Input)
    (h0 : 0 ≤ input.quality) (h5 : input.quality ≤ 5) :
    ∃ r : SM2Result, calculateSM2 input = Except.ok r ∧
      r.easeFactor =
        max 1.3
          (input.easeFactor +
            (0.1 - (5 - input.quality) * (0.08 + (5 - input.quality) * 0.02))) ∧
      1.3 ≤ r.easeFactor := by
  rw [calculateSM2_eq_ok input h0 h5]
  split_ifs <;> exact ⟨_, rfl, rfl, le_sm2Ease input⟩

/-- Witness for C2 at quality 0, ease 2.5: the returned ease factor is
max(1.3, 1.7) = 1.7 and is at least 1.3. -/
theorem sm2_easeFactor_spec_witness :
    ∃ r : SM2Result,
      calculateSM2 { quality := 0, repetitions := 0, easeFactor := 2.5, interval := 0 } =
        Except.ok r ∧
      r.easeFactor = max 1.3 (2.5 + (0.1 - (5 - 0) * (0.08 + (5 - 0) * 0.02))) ∧
      1.3 ≤ r.easeFactor :=
  sm2_easeFactor_spec
    { quality := 0, repetitions := 0, easeFactor := 2.5, interval := 0 }
    (by norm_num) (by norm_num)

/-- C3 counterexample: on the state (ease 2.5, interval 6,
repetitions 2) with quality 3 the code does not return
(ease 2.5, interval 15): the ease factor drops to 2.36
(2.5 + (0.1 - 2 * (0.08 + 2 * 0.02)) = 2.36) and the interval is
round(6 * 2.36) = 14. -/
theorem sm2_good_scenario_not_as_documented :
    calculateSM2 { quality := 3, repetitions := 2, easeFactor := 2.5, interval := 6 } ≠
      Except.ok { interval := 15, repetitions := 3, easeFactor := 2.5 } := by
  have h : calculateSM2
      { quality := 3, repetitions := 2, easeFactor := 2.5, interval := 6 } =
      Except.ok { interval := 14, repetitions := 3, easeFactor := 2.36 } := by
    simp only [calculateSM2, jsRound]
    norm_num
  rw [h]
  intro hc
  have h14 : (14 : ℚ) = 15 := congrArg SM2Result.interval (Except.ok.inj hc)
  norm_num at h14

/-- C3 amended: on the state (ease 2.5, interval 6, repetitions 2)
with quality 3 the code returns ease factor 2.36, interval 14 and
repetitions 3. -/
theorem sm2_good_scenario_actual :
    calculateSM2 { quality := 3, repetitions := 2, easeFactor := 2.5, interval := 6 } =
      Except.ok { interval := 14, repetitions := 3, easeFactor := 2.36 } := by
  simp only [calculateSM2, jsRound]
  norm_num

/-- C4: `calculateSM2` fails if and only if the quality is outside
[0,5]; on any quality in [0,5] it returns a result, whatever the rest
of the state is. -/
theorem sm2_error_iff (input : SM2Input) :
    ((∃ e, calculateSM2 input = Except.error e) ↔
      (input.quality < 0 ∨ input.quality > 5)) ∧
    ((∃ r, calculateSM2 input = Except.ok r) ↔
      (0 ≤ input.quality ∧ input.quality ≤ 5)) := by
  by_cases hv : input.quality < 0 ∨ input.quality > 5
  · constructor
    · exact ⟨fun _ => hv,
        fun _ => ⟨"Quality must be between 0 and 5",
          by simp only [calculateSM2, if_pos hv]⟩⟩
    · constructor
      · rintro ⟨r, hr⟩
        simp only [calculateSM2, if_pos hv] at hr
        exact Except.noConfusion hr
      · rintro ⟨ha, hb⟩
        rcases hv with hv | hv
        · exact absurd ha (not_le.mpr hv)
        · exact absurd hb (not_le.mpr hv)
  · push_neg at hv
    rw [calculateSM2_eq_ok input hv.1 hv.2]
    constructor
    · constructor
      · rintro ⟨e, he⟩
        split_ifs at he
      · intro h
        rcases h with h | h
        · exact absurd hv.1 (not_le.mpr h)
        · exact absurd hv.2 (not_le.mpr h)
    · constructor
      · intro _
        exact hv
      · intro _
        split_ifs <;> exact ⟨_, rfl⟩

/-- C9: for every quality in [0,5] and every state with ease factor at
least 1.3 satisfying the invariant (repetitions ≥ 1 implies
interval ≥ 1), the state returned by `calculateSM2` satisfies the same
invariant: a reviewed state never gets interval 0. -/
theorem sm2_interval_invariant (input : SM2Input)
    (h0 : 0 ≤ input.quality) (h5 : input.quality ≤ 5)
    (_hef : 1.3 ≤ input.easeFactor)
    (hinv : 1 ≤ input.repetitions → 1 ≤ input.interval) :
    ∃ r : SM2Result, calculateSM2 input = Except.ok r ∧
      (1 ≤ r.repetitions → 1 ≤ r.interval) := by
  rw [calculateSM2_eq_ok input h0 h5]
  by_cases h3 : input.quality < 3
  · rw [if_pos h3]
    exact ⟨_, rfl, fun _ => le_refl (1 : ℚ)⟩
  · rw [if_neg h3]
    by_cases h1 : input.repetitions + 1 = 1
    · rw [if_pos h1]
      exact ⟨_, rfl, fun _ => le_refl (1 : ℚ)⟩
    · rw [if_neg h1]
      by_cases h2 : input.repetitions + 1 = 2
      · rw [if_pos h2]
        exact ⟨_, rfl, fun _ => by norm_num⟩
      · rw [if_neg h2]
        refine ⟨_, rfl, fun hr => ?_⟩
        have hr' : (1 : ℤ) ≤ input.repetitions + 1 := hr
        have hint1 : 1 ≤ input.interval := hinv (by omega)
        have hease := le_sm2Ease input
        have hx : (1.3 : ℚ) ≤ input.interval * sm2Ease input := by
          calc (1.3 : ℚ) = 1 * 1.3 := by norm_num
            _ ≤ input.interval * sm2Ease input :=
              mul_le_mul hint1 hease (by norm_num)
                (le_trans (by norm_num) hint1)
        have hjs : (1 : ℤ) ≤ jsRound (input.interval * sm2Ease input) := by
          rw [jsRound, Int.le_floor]
          push_cast
          linarith
        show (1 : ℚ) ≤ (jsRound (input.interval * sm2Ease input) : ℚ)
        exact_mod_cast hjs

/-- Witness for C9 at quality 5, state (ease 2.5, interval 10,
repetitions 5): hypotheses hold and the returned state keeps the
invariant. -/
theorem sm2_interval_invariant_witness :
    ∃ r : SM2Result,
      calculateSM2 { quality := 5, repetitions := 5, easeFactor := 2.5, interval := 10 } =
        Except.ok r ∧
      (1 ≤ r.repetitions → 1 ≤ r.interval) :=
  sm2_interval_invariant
    { quality := 5, repetitions := 5, easeFactor := 2.5, interval := 10 }
    (by norm_num) (by norm_num) (by norm_num) (fun _ => by norm_num)

/-- C10: `calculateSM2` does not require the quality to be an integer:
any non-integral quality in [0,5] yields a result (no InvalidQuality),
with the usual ease-factor formula applied to the fractional value and
the usual failure/success branching. -/
theorem sm2_fractional_quality (input : SM2Input)
    (h0 : 0 ≤ input.quality) (h5 : input.quality ≤ 5)
    (_hfrac : ¬∃ n : ℤ, input.quality = (n : ℚ)) :
    ∃ r : SM2Result, calculateSM2 input = Except.ok r ∧
      r.easeFactor =
        max 1.3
          (input.easeFactor +
            (0.1 - (5 - input.quality) * (0.08 + (5 - input.quality) * 0.02))) ∧
      (input.quality < 3 → r.repetitions = 0 ∧ r.interval = 1) ∧
      (3 ≤ input.quality → r.repetitions = input.repetitions + 1) := by
  rw [calculateSM2_eq_ok input h0 h5]
  by_cases h3 : input.quality < 3
  · rw [if_pos h3]
    exact ⟨_, rfl, rfl, fun _ => ⟨rfl, rfl⟩,
      fun hq3 => absurd h3 (not_lt.mpr hq3)⟩
  · rw [if_neg h3]
    split_ifs <;>
      exact ⟨_, rfl, rfl, fun hq => absurd hq h3, fun _ => rfl⟩

/-- Witness for C10 at the non-integral quality 2.5 (which is accepted
and lands in the failure branch, ease factor 2.275). -/
theorem sm2_fractional_quality_witness :
    ∃ r : SM2Result,
      calculateSM2 { quality := 2.5, repetitions := 0, easeFactor := 2.5, interval := 0 } =
        Except.ok r ∧
      r.easeFactor = max 1.3 (2.5 + (0.1 - (5 - 2.5) * (0.08 + (5 - 2.5) * 0.02))) ∧
      ((2.5 : ℚ) < 3 → r.repetitions = 0 ∧ r.interval = 1) ∧
      ((3 : ℚ) ≤ 2.5 → r.repetitions = 0 + 1) :=
  sm2_fractional_quality
    { quality := 2.5, repetitions := 0, easeFactor := 2.5, interval := 0 }
    (by norm_num) (by norm_num)
    (by
      rintro ⟨n, hn⟩
      have h2 : (n : ℚ) = 2.5 := hn.symm
      have ha : (2 : ℚ) < (n : ℚ) := by
        rw [h2]
        norm_num
      have hb : (n : ℚ) < 3 := by
        rw [h2]
        norm_num
      have ha' : (2 : ℤ) < n := by exact_mod_cast ha
      have hb' : n < 3 := by exact_mod_cast hb
      omega)

lemma fetchDueCards_isDueResult (rows : List ReviewRow) (asOf : ℤ) :
    IsDueResult rows asOf (fetchDueCards rows asOf) :=
  ⟨List.perm_insertionSort byNextReview _,
    List.sorted_insertionSort byNextReview _⟩

/-- C5: `fetchDueCards` returns only rows whose `next_review_date` is
at or before `asOf`, in non-decreasing order of `next_review_date`,
and returns the empty list (not an error) when nothing is due. -/
theorem fetchDueCards_due_sorted (rows : List ReviewRow) (asOf : ℤ) :
    (∀ r ∈ fetchDueCards rows asOf, r.nextReviewAt ≤ asOf) ∧
    (fetchDueCards rows asOf).Pairwise
      (fun a b => a.nextReviewAt ≤ b.nextReviewAt) ∧
    ((∀ r ∈ rows, asOf < r.nextReviewAt) → fetchDueCards rows asOf = []) := by
  refine ⟨?_, ?_, ?_⟩
  · intro r hr
    have hmem : r ∈ rows.filter fun s => decide (s.nextReviewAt ≤ asOf) :=
      (List.Perm.mem_iff (List.perm_insertionSort byNextReview _)).mp hr
    have := List.of_mem_filter hmem
    exact of_decide_eq_true this
  · exact List.sorted_insertionSort byNextReview _
  · intro h
    have hfil : (rows.filter fun s => decide (s.nextReviewAt ≤ asOf)) = [] := by
      rw [List.filter_eq_nil_iff]
      intro r hr
      simp only [decide_eq_true_eq, not_le]
      exact h r hr
    simp only [fetchDueCards, hfil, List.insertionSort]

/-- Witness for C5 on the collection with one card due at time 5,
queried as of time 0: nothing is due and the result is empty. -/
theorem fetchDueCards_due_sorted_witness :
    fetchDueCards [{ cardId := 1, nextReviewAt := 5 }] 0 = [] :=
  (fetchDueCards_due_sorted [{ cardId := 1, nextReviewAt := 5 }] 0).2.2
    (by decide)

/-- C6 counterexample: with two cards tied at the same
`next_review_date`, both id orders satisfy everything the query
requires (the code adds no secondary order key), so identical inputs
do not determine an identical ordered sequence of card ids. -/
theorem fetchDueCards_tie_not_deterministic :
    IsDueResult [{ cardId := 1, nextReviewAt := 0 }, { cardId := 2, nextReviewAt := 0 }] 0
      [{ cardId := 1, nextReviewAt := 0 }, { cardId := 2, nextReviewAt := 0 }] ∧
    IsDueResult [{ cardId := 1, nextReviewAt := 0 }, { cardId := 2, nextReviewAt := 0 }] 0
      [{ cardId := 2, nextReviewAt := 0 }, { cardId := 1, nextReviewAt := 0 }] ∧
    List.map ReviewRow.cardId
        [{ cardId := 1, nextReviewAt := 0 }, { cardId := 2, nextReviewAt := 0 }] ≠
      List.map ReviewRow.cardId
        [{ cardId := 2, nextReviewAt := 0 }, { cardId := 1, nextReviewAt := 0 }] := by
  refine ⟨⟨?_, ?_⟩, ⟨?_, ?_⟩, ?_⟩
  · exact List.Perm.refl _
  · simp [List.pairwise_cons, byNextReview]
  · exact List.Perm.swap _ _ _
  · simp [List.pairwise_cons, byNextReview]
  · decide

/-- C6 amended: the query orders only by `next_review_date`; the
returned sequence is determined exactly when the due rows have
pairwise distinct `next_review_date` values, in which case any two
outcomes of the query coincide. -/
theorem fetchDueCards_unique_of_distinct (rows : List ReviewRow) (asOf : ℤ)
    (out₁ out₂ : List ReviewRow)
    (hkeys : (rows.filter fun r => decide (r.nextReviewAt ≤ asOf)).Pairwise
      (fun a b => a.nextReviewAt ≠ b.nextReviewAt))
    (h₁ : IsDueResult rows asOf out₁) (h₂ : IsDueResult rows asOf out₂) :
    out₁ = out₂ := by
  obtain ⟨p₁, s₁⟩ := h₁
  obtain ⟨p₂, s₂⟩ := h₂
  have hk₁ : out₁.Pairwise fun a b => a.nextReviewAt ≠ b.nextReviewAt :=
    (List.Perm.pairwise_iff (fun h => Ne.symm h) p₁).mpr hkeys
  have hk₂ : out₂.Pairwise fun a b => a.nextReviewAt ≠ b.nextReviewAt :=
    (List.Perm.pairwise_iff (fun h => Ne.symm h) p₂).mpr hkeys
  have hlt₁ : out₁.Pairwise fun a b => a.nextReviewAt < b.nextReviewAt :=
    (s₁.and hk₁).imp fun h => lt_of_le_of_ne h.1 h.2
  have hlt₂ : out₂.Pairwise fun a b => a.nextReviewAt < b.nextReviewAt :=
    (s₂.and hk₂).imp fun h => lt_of_le_of_ne h.1 h.2
  haveI : IsAntisymm ReviewRow fun a b => a.nextReviewAt < b.nextReviewAt :=
    ⟨fun _ _ h h' => absurd h' (lt_asymm h)⟩
  exact List.eq_of_perm_of_sorted (p₁.trans p₂.symm) hlt₁ hlt₂

/-- Witness for C6 amended: two cards due at distinct times; both
hypotheses are discharged at the sorted outcome, which is unique. -/
theorem fetchDueCards_unique_of_distinct_witness :
    [({ cardId := 2, nextReviewAt := -3 } : ReviewRow), { cardId := 1, nextReviewAt := -1 }] =
      [{ cardId := 2, nextReviewAt := -3 }, { cardId := 1, nextReviewAt := -1 }] :=
  fetchDueCards_unique_of_distinct
    [{ cardId := 1, nextReviewAt := -1 }, { cardId := 2, nextReviewAt := -3 }] 0
    [{ cardId := 2, nextReviewAt := -3 }, { cardId := 1, nextReviewAt := -1 }]
    [{ cardId := 2, nextReviewAt := -3 }, { cardId := 1, nextReviewAt := -1 }]
    (by simp [List.pairwise_cons])
    ⟨by decide, by simp [List.pairwise_cons, byNextReview]⟩
    ⟨by decide, by simp [List.pairwise_cons, byNextReview]⟩

/-- C7: same-day study leaves the record unchanged (hence repeated
same-day calls are idempotent); studying one day after the last study
date increments the streak; a first-ever study or any other gap resets
it to 1; and the last study date becomes the studied date in every
branch except the same-day no-op. -/
theorem updateUserStreak_spec (p : StreakProfile) (d : ℤ) :
    (p.lastStudyDate = some d → updateUserStreak p d = p) ∧
    updateUserStreak (updateUserStreak p d) d = updateUserStreak p d ∧
    (p.lastStudyDate = some (d - 1) →
      updateUserStreak p d =
        { lastStudyDate := some d, streakCount := p.streakCount + 1,
          totalCardsStudied := p.totalCardsStudied + 1 }) ∧
    ((p.lastStudyDate = none ∨
        ∃ l, p.lastStudyDate = some l ∧ l ≠ d ∧ l ≠ d - 1) →
      updateUserStreak p d =
        { lastStudyDate := some d, streakCount := 1,
          totalCardsStudied := p.totalCardsStudied + 1 }) := by
  have hsame : ∀ q : StreakProfile, q.lastStudyDate = some d →
      updateUserStreak q d = q := by
    intro q hq
    simp only [updateUserStreak, if_pos hq]
  refine ⟨hsame p, ?_, ?_, ?_⟩
  · by_cases hd : p.lastStudyDate = some d
    · rw [hsame p hd]
      exact hsame p hd
    · have h1 : (updateUserStreak p d).lastStudyDate = some d := by
        simp only [updateUserStreak, if_neg hd]
      exact hsame _ h1
  · intro hy
    have hd : p.lastStudyDate ≠ some d := by
      rw [hy]
      intro hc
      have : d - 1 = d := Option.some.inj hc
      omega
    simp only [updateUserStreak, if_neg hd, if_pos hy]
  · intro hgap
    have hd : p.lastStudyDate ≠ some d := by
      rcases hgap with hn | ⟨l, hl, hld, _⟩
      · rw [hn]
        exact fun hc => Option.noConfusion hc
      · rw [hl]
        intro hc
        exact hld (Option.some.inj hc)
    have hy : p.lastStudyDate ≠ some (d - 1) := by
      rcases hgap with hn | ⟨l, hl, _, hly⟩
      · rw [hn]
        exact fun hc => Option.noConfusion hc
      · rw [hl]
        intro hc
        exact hly (Option.some.inj hc)
    simp only [updateUserStreak, if_neg hd, if_neg hy]

/-- Witness for C7: a profile last studied on day 9 with streak 3,
studied again on day 10: the streak becomes 4 and the date advances. -/
theorem updateUserStreak_spec_witness :
    updateUserStreak { lastStudyDate := some 9, streakCount := 3, totalCardsStudied := 7 } 10 =
      { lastStudyDate := some 10, streakCount := 3 + 1, totalCardsStudied := 7 + 1 } :=
  (updateUserStreak_spec
    { lastStudyDate := some 9, streakCount := 3, totalCardsStudied := 7 } 10).2.2.1
    (by decide)

/-- C8 counterexample: no quantity read off the stored profile row can
behave as the claimed `longestStreak`: there is no function of the row
that never decreases across `updateUserStreak` calls and always bounds
the current streak, because a profile with an arbitrarily large streak
collapses to the fixed row (day 10, streak 1, total 1) after a gap. -/
theorem updateUserStreak_no_longest :
    ¬∃ longest : StreakProfile → ℤ,
      ∀ (p : StreakProfile) (d : ℤ),
        longest p ≤ longest (updateUserStreak p d) ∧
        (updateUserStreak p d).streakCount ≤ longest (updateUserStreak p d) := by
  rintro ⟨longest, h⟩
  have key : ∀ N : ℤ,
      N ≤ longest { lastStudyDate := some 10, streakCount := 1, totalCardsStudied := 1 } := by
    intro N
    have e1 : updateUserStreak
        { lastStudyDate := some 0, streakCount := N, totalCardsStudied := 0 } 0 =
        { lastStudyDate := some 0, streakCount := N, totalCardsStudied := 0 } := by
      simp [updateUserStreak]
    have h1 := h { lastStudyDate := some 0, streakCount := N, totalCardsStudied := 0 } 0
    rw [e1] at h1
    have e2 : updateUserStreak
        { lastStudyDate := some 0, streakCount := N, totalCardsStudied := 0 } 10 =
        { lastStudyDate := some 10, streakCount := 1, totalCardsStudied := 1 } := by
      simp [updateUserStreak]
    have h2 := h { lastStudyDate := some 0, streakCount := N, totalCardsStudied := 0 } 10
    rw [e2] at h2
    calc N ≤ longest { lastStudyDate := some 0, streakCount := N, totalCardsStudied := 0 } :=
        h1.2
      _ ≤ longest { lastStudyDate := some 10, streakCount := 1, totalCardsStudied := 1 } :=
        h2.1
  have hk := key
    (longest { lastStudyDate := some 10, streakCount := 1, totalCardsStudied := 1 } + 1)
  omega

/-- C8 amended: `updateUserStreak` maintains no longest streak.  On a
one-day gap the (only) streak field is incremented, but the
incremented value is recorded nowhere else, and the streak field
itself decreases whenever a gap resets a streak that was above 1. -/
theorem updateUserStreak_streak_not_preserved (p : StreakProfile) (d : ℤ) :
    (p.lastStudyDate = some (d - 1) →
      (updateUserStreak p d).streakCount = p.streakCount + 1) ∧
    (p.lastStudyDate = some (d - 2) → 2 ≤ p.streakCount →
      (updateUserStreak p d).streakCount < p.streakCount) := by
  constructor
  · intro hy
    have hd : p.lastStudyDate ≠ some d := by
      rw [hy]
      intro hc
      have : d - 1 = d := Option.some.inj hc
      omega
    simp only [updateUserStreak, if_neg hd, if_pos hy]
  · intro hg hs
    have hd : p.lastStudyDate ≠ some d := by
      rw [hg]
      intro hc
      have : d - 2 = d := Option.some.inj hc
      omega
    have hy : p.lastStudyDate ≠ some (d - 1) := by
      rw [hg]
      intro hc
      have : d - 2 = d - 1 := Option.some.inj hc
      omega
    simp only [updateUserStreak, if_neg hd, if_neg hy]
    omega

/-- Witness for C8 amended: a streak of 5 last studied on day 0,
studied again on day 2: the stored streak drops from 5 to 1. -/
theorem updateUserStreak_streak_not_preserved_witness :
    (updateUserStreak
        { lastStudyDate := some 0, streakCount := 5, totalCardsStudied := 0 } 2).streakCount <
      5 :=
  (updateUserStreak_streak_not_preserved
    { lastStudyDate := some 0, streakCount := 5, totalCardsStudied := 0 } 2).2
    (by decide) (by norm_num)

end Flashcard
